import Mathlib

/-!
Verification of the core subsystems of the Deepseek chat application
(source: Deepseek_Chat.py): the response validator, the prompt escalator,
the retry orchestrator, the content splitter, and the session store
(ChatManager).  Each definition is a shallow embedding of the
corresponding Python function; strings are modelled as lists of
characters where character-level processing matters.
-/

/-- Python ASCII whitespace as used by str.strip with no arguments
(space, tab, newline, carriage return, vertical tab, form feed). -/
def pyIsSpace (c : Char) : Bool :=
  c = ' ' || c = '\t' || c = '\n' || c = '\r' || c = Char.ofNat 11 || c = Char.ofNat 12

/-- Python str.strip(): remove leading and trailing whitespace. -/
def pyStrip (s : List Char) : List Char :=
  ((s.dropWhile pyIsSpace).reverse.dropWhile pyIsSpace).reverse

/-- Find the first occurrence of the separator inside a character list:
returns the part before the occurrence and the part after it, or none if
the separator does not occur. -/
def splitFirst (sep : List Char) : List Char → Option (List Char × List Char)
  | [] => if sep.isEmpty then some ([], []) else none
  | c :: rest =>
    if sep.isPrefixOf (c :: rest) then some ([], (c :: rest).drop sep.length)
    else
      match splitFirst sep rest with
      | none => none
      | some (pre, post) => some (c :: pre, post)

/-- Whether the separator occurs as a contiguous segment. -/
def containsSeq (sep s : List Char) : Bool :=
  (splitFirst sep s).isSome

/-- Fuel-driven worker for Python str.split(sep): repeatedly cut at the
first occurrence of the separator.  The fuel bounds the number of cuts;
a fuel of length + 1 is always sufficient for a non-empty separator. -/
def pySplitF (sep : List Char) : Nat → List Char → List (List Char)
  | 0, s => [s]
  | fuel + 1, s =>
    match splitFirst sep s with
    | none => [s]
    | some (pre, post) => pre :: pySplitF sep fuel post

/-- Python str.split(sep) for a non-empty separator. -/
def pySplit (sep s : List Char) : List (List Char) :=
  pySplitF sep (s.length + 1) s

/-- The opening reasoning marker. -/
def thinkOpen : List Char := "<think>".data

/-- The closing reasoning marker. -/
def thinkClose : List Char := "</think>".data

/-- ChatWorker.extract_content_and_thoughts, character-level core.
The Python length guards on parts and think_parts become pattern
matches on the split results (a split result is never empty, so the
nil arms are unreachable).  The Python body is wrapped in try/except,
but every operation it performs (split, strip, guarded indexing) is
total, so the except branch is unreachable and the function is a total
map from the input text to the (answer, reasoning) pair. -/
def extractCore (content : List Char) : List Char × List Char :=
  match pySplit thinkOpen content with
  | [] => ([], [])
  | [p0] => (pyStrip p0, [])
  | p0 :: p1 :: _ =>
    let beforeThink := pyStrip p0
    match pySplit thinkClose p1 with
    | [] => (beforeThink, [])
    | [t0] => (beforeThink, pyStrip t0)
    | t0 :: t1 :: _ => (pyStrip (beforeThink ++ ' ' :: pyStrip t1), pyStrip t0)

/-- ChatWorker.extract_content_and_thoughts on strings. -/
def extract_content_and_thoughts (content : String) : String × String :=
  let r := extractCore content.data
  (String.mk r.1, String.mk r.2)

/-!
XML document model following xml.etree.ElementTree: an element has a
tag, the text that precedes its first child, and a list of children,
each carrying the tail text that follows its closing tag.  A mutual
inductive avoids nesting XElem inside List.
-/

mutual
inductive XElem : Type where
  | node : List Char → List Char → XChildren → XElem
deriving DecidableEq
inductive XChildren : Type where
  | nil : XChildren
  | cons : XElem → List Char → XChildren → XChildren
deriving DecidableEq
end

def XElem.tagOf : XElem → List Char
  | .node t _ _ => t

def XElem.textOf : XElem → List Char
  | .node _ x _ => x

def XElem.childrenOf : XElem → XChildren
  | .node _ _ cs => cs

def XChildren.len : XChildren → Nat
  | .nil => 0
  | .cons _ _ r => r.len + 1

/-- The child elements, without their tail texts. -/
def XChildren.elems : XChildren → List XElem
  | .nil => []
  | .cons e _ r => e :: r.elems

/- Preorder (document-order) traversal, pairing every node with its
path of child indices from the given root.  ElementTree iteration and
findall both enumerate in this order. -/
mutual
def XElem.allNodes : XElem → List (List Nat × XElem)
  | .node t x cs => ([], .node t x cs) :: XChildren.allNodesFrom 0 cs
def XChildren.allNodesFrom : Nat → XChildren → List (List Nat × XElem)
  | _, .nil => []
  | i, .cons e _ r =>
    (XElem.allNodes e).map (fun pe => (i :: pe.1, pe.2)) ++ XChildren.allNodesFrom (i + 1) r
end

/-- Strict descendants of an element in document order (ElementTree
findall with a descendant path never returns the root itself). -/
def XElem.descendants (e : XElem) : List (List Nat × XElem) :=
  XChildren.allNodesFrom 0 e.childrenOf

/-!
A small XML parser reproducing ET.fromstring on the fragment of XML
this program can feed it: start tags (attributes are skipped without
being parsed, self-closing tags supported), end tags, character data
and the five named entities.  Comments, processing instructions,
CDATA sections and numeric character references are not modelled; no
input considered in this development contains them.  Any flaw in the
input (stray angle bracket or ampersand, mismatched or unclosed tags,
content outside the root element) yields none, mirroring ET.ParseError.
-/

/-- Items accumulated while a start tag is open: raw characters and
completed child elements, most recent first. -/
inductive PItem : Type where
  | ptxt : Char → PItem
  | pchild : XElem → PItem

/-- Fold a left-to-right item sequence into leading text plus children
paired with their tails. -/
def buildItems : List PItem → List Char × XChildren
  | [] => ([], .nil)
  | PItem.ptxt c :: rest =>
    let r := buildItems rest
    (c :: r.1, r.2)
  | PItem.pchild e :: rest =>
    let r := buildItems rest
    ([], XChildren.cons e r.1 r.2)

def buildElem (tag : List Char) (revItems : List PItem) : XElem :=
  let r := buildItems revItems.reverse
  XElem.node tag r.1 r.2

def isNameStartChar (c : Char) : Bool :=
  c.isAlpha || c = '_' || c = ':'

def isNameChar (c : Char) : Bool :=
  c.isAlpha || c.isDigit || c = '_' || c = '-' || c = '.' || c = ':'

def isXmlSpace (c : Char) : Bool :=
  c = ' ' || c = '\t' || c = '\n' || c = '\r'

/-- Decode a character entity after an ampersand. -/
def parseEntity (s : List Char) : Option (Char × List Char) :=
  if "amp;".data.isPrefixOf s then some ('&', s.drop 4)
  else if "lt;".data.isPrefixOf s then some ('<', s.drop 3)
  else if "gt;".data.isPrefixOf s then some ('>', s.drop 3)
  else if "apos;".data.isPrefixOf s then some (Char.ofNat 39, s.drop 5)
  else if "quot;".data.isPrefixOf s then some (Char.ofNat 34, s.drop 5)
  else none

/-- The parsing loop.  The stack holds the open elements, innermost
first, as (tag, reversed items).  Each recursive call consumes at least
one input character, so fuel = input length + 1 always suffices. -/
def parseLoop : Nat → List Char → List (List Char × List PItem) → Option XElem
  | 0, _, _ => none
  | _ + 1, [], _ => none
  | fuel + 1, '<' :: rest, stack =>
    match rest with
    | '/' :: rest2 =>
      let p := rest2.span isNameChar
      match p.2.dropWhile isXmlSpace, stack with
      | '>' :: rest5, (tag, items) :: stackRest =>
        if p.1 = tag && !p.1.isEmpty then
          let elem := buildElem tag items
          match stackRest with
          | [] => if rest5.all isXmlSpace then some elem else none
          | (ptag, pitems) :: ss =>
            parseLoop fuel rest5 ((ptag, PItem.pchild elem :: pitems) :: ss)
        else none
      | _, _ => none
    | c :: _ =>
      if isNameStartChar c then
        let p := rest.span isNameChar
        let q := p.2.span (fun ch => !(ch = '>') && !(ch = '<'))
        match q.2 with
        | '>' :: rest5 =>
          if q.1.getLast? = some '/' then
            let elem := XElem.node p.1 [] .nil
            match stack with
            | [] => if rest5.all isXmlSpace then some elem else none
            | (ptag, pitems) :: ss =>
              parseLoop fuel rest5 ((ptag, PItem.pchild elem :: pitems) :: ss)
          else
            parseLoop fuel rest5 ((p.1, []) :: stack)
        | _ => none
      else none
    | [] => none
  | fuel + 1, '&' :: rest, stack =>
    match parseEntity rest, stack with
    | some (ch, rest2), (tag, items) :: ss =>
      parseLoop fuel rest2 ((tag, PItem.ptxt ch :: items) :: ss)
    | _, _ => none
  | fuel + 1, c :: rest, stack =>
    match stack with
    | [] => if isXmlSpace c then parseLoop fuel rest [] else none
    | (tag, items) :: ss => parseLoop fuel rest ((tag, PItem.ptxt c :: items) :: ss)

/-- ET.fromstring: parse a complete document into its root element. -/
def parseXml (s : List Char) : Option XElem :=
  parseLoop (s.length + 1) s []

def thinkTag : List Char := "think".data

/-- Does a child list contain a direct child element tagged think?
This is the predicate of the ElementTree path query .//*[think]. -/
def hasThinkChild (cs : XChildren) : Bool :=
  cs.elems.any (fun e => e.tagOf = thinkTag)

/-- If the second path addresses a direct child of the node addressed
by the first path, return that child's index.  Used to model Python's
list(parent).index(last_element): ET elements compare by object
identity, so the index lookup succeeds exactly when last_element is
the very node sitting among the parent's children, and then returns
its position; otherwise Python raises ValueError. -/
def childIndexOf : List Nat → List Nat → Option Nat
  | [], [i] => some i
  | p :: ps, q :: qs => if p = q then childIndexOf ps qs else none
  | _, _ => none

/-- ChatWorker.validate_response, character-level core.  Returns
some b when the Python function returns the boolean b, and none when
it raises an uncaught exception (the ValueError from list.index when
the last think element is not a child of the .//*[think] node; only
ET.ParseError is caught by the function itself). -/
def validateCore (content : List Char) : Option Bool :=
  if content.isEmpty then some false
  else
    match parseXml ("<root>".data ++ content ++ "</root>".data) with
    | none => some false
    | some tree =>
      let thinks := tree.descendants.filter (fun pe => pe.2.tagOf = thinkTag)
      match thinks.getLast? with
      | none => some false
      | some lastThink =>
        if (pyStrip lastThink.2.textOf).length < 10 then some false
        else
          match (tree.allNodes.filter (fun pe => pe.2.tagOf = thinkTag)).getLast? with
          | none => some true
          | some lastElement =>
            match tree.descendants.find? (fun pe => hasThinkChild pe.2.childrenOf) with
            | none => some true
            | some parentPE =>
              match childIndexOf parentPE.1 lastElement.1 with
              | none => none
              | some thinkIndex =>
                if thinkIndex < parentPE.2.childrenOf.len - 1 then some false
                else some true

/-- ChatWorker.validate_response on strings. -/
def validate_response (content : String) : Option Bool :=
  validateCore content.data

/-!
The retry orchestrator (ChatWorker.get_valid_response together with
ChatWorker.enhance_prompt).  The backend call ollama.chat is modelled
as an oracle mapping the attempt number of the call to either a reply
text or a transport error.
-/

/-- ChatWorker.enhance_prompt: the fixed escalation list, indexed with
the attempt count clamped to the last entry. -/
def enhance_prompt (failed_attempts : Nat) : String :=
  let l := [
    "IMPORTANT: Your response MUST end with <think></think>",
    "CRITICAL: You MUST include meaningful thoughts in <think></think> tags at the END of your response",
    "FINAL REMINDER: Response format must be: [Your answer] followed by <think>your thoughts</think>",
    "STRICT REQUIREMENT: End your response with detailed thoughts in <think></think> tags",
    "MANDATORY: Include substantial thoughts (>10 words) in <think></think> tags at the end"]
  l.getD (min failed_attempts (l.length - 1)) ""

/-- A role/content pair as sent to the backend. -/
structure ChatMsg where
  role : String
  content : String
deriving DecidableEq

/-- The message sequence built at the top of get_valid_response: the
system prompt, then the last ten history entries, then the prompt. -/
def initial_messages (system_prompt : String) (history : List ChatMsg) (prompt : String) : List ChatMsg :=
  ChatMsg.mk "system" system_prompt ::
    (if 10 < history.length then history.drop (history.length - 10) else history) ++
    [ChatMsg.mk "user" prompt]

/-- The retry loop of get_valid_response.  Recursion is on the number
of remaining attempts; the attempt counter of the Python for-loop is
max_retries - remaining.  The result pairs the outcome with the list
of message sequences sent to the backend, one entry per backend call.
When validate_response raises (none), control reaches the same except
branch that catches transport errors; the interpolated str(e) of that
exception is not modelled and appears as a fixed placeholder. -/
def retry_loop (backend : Nat → Except String String) (prompt : String)
    (max_retries : Nat) : Nat → List ChatMsg → Except String String × List (List ChatMsg)
  | 0, _ => (Except.error "Failed to get valid response with proper think tags", [])
  | remaining + 1, messages =>
    let attempt := max_retries - (remaining + 1)
    match backend attempt with
    | Except.error e =>
      if attempt = max_retries - 1 then
        (Except.error ("Failed to get valid response after " ++ toString max_retries
          ++ " attempts: " ++ e), [messages])
      else
        let r := retry_loop backend prompt max_retries remaining messages
        (r.1, messages :: r.2)
    | Except.ok content =>
      match validate_response content with
      | some true => (Except.ok content, [messages])
      | some false =>
        let messages2 := messages ++
          [ChatMsg.mk "system" (enhance_prompt attempt), ChatMsg.mk "user" prompt]
        let r := retry_loop backend prompt max_retries remaining messages2
        (r.1, messages :: r.2)
      | none =>
        if attempt = max_retries - 1 then
          (Except.error ("Failed to get valid response after " ++ toString max_retries
            ++ " attempts: ValueError"), [messages])
        else
          let r := retry_loop backend prompt max_retries remaining messages
          (r.1, messages :: r.2)

/-- ChatWorker.get_valid_response: build the initial message sequence
and run the retry loop over the full budget. -/
def get_valid_response (backend : Nat → Except String String) (prompt : String)
    (history : List ChatMsg) (system_prompt : String) (max_retries : Nat) :
    Except String String × List (List ChatMsg) :=
  retry_loop backend prompt max_retries max_retries (initial_messages system_prompt history prompt)

/-- Number of system-role entries in a message sequence. -/
def countSystem : List ChatMsg → Nat
  | [] => 0
  | m :: rest => (if m.role = "system" then 1 else 0) + countSystem rest

/-!
The session store (ChatManager).  The chats_metadata dictionary and the
per-session files under the chats directory are modelled as
insertion-ordered association lists, matching Python dict semantics and
a directory of JSON files keyed by id.  uuid4 ids and datetime
timestamps are external inputs and appear as parameters.  Serialization
to disk (_save_chats_metadata, json.dump) is modelled as the state
itself; the claims considered here assume runs without partial failure.
-/

/-- A stored message: {'role', 'content', 'timestamp'}. -/
structure StoredMessage where
  role : String
  content : String
  timestamp : String
deriving DecidableEq

/-- One chats_metadata entry. -/
structure ChatMeta where
  created_at : String
  updated_at : String
  title : String
  messages : List StoredMessage
deriving DecidableEq

/-- The persistent state of a ChatManager. -/
structure ChatState where
  chats_metadata : List (String × ChatMeta)
  files : List (String × List StoredMessage)
  active_chat_id : Option String
deriving DecidableEq

def dictLookup {α : Type} (k : String) : List (String × α) → Option α
  | [] => none
  | (k2, v) :: t => if k2 = k then some v else dictLookup k t

/-- Python dict assignment: update the entry in place if the key is
present, otherwise append at the end (insertion order). -/
def dictInsert {α : Type} (k : String) (v : α) : List (String × α) → List (String × α)
  | [] => [(k, v)]
  | (k2, v2) :: t => if k2 = k then (k, v) :: t else (k2, v2) :: dictInsert k v t

def dictErase {α : Type} (k : String) : List (String × α) → List (String × α)
  | [] => []
  | (k2, v2) :: t => if k2 = k then t else (k2, v2) :: dictErase k t

/-- ChatManager.create_new_chat: returns the new state together with
the id and the assigned default title.  The title reads the catalog
size before the insertion. -/
def create_new_chat (chat_id timestamp : String) (s : ChatState) : ChatState × String × String :=
  let meta : ChatMeta :=
    ⟨timestamp, timestamp, "Chat " ++ toString (s.chats_metadata.length + 1), []⟩
  (⟨dictInsert chat_id meta s.chats_metadata, dictInsert chat_id [] s.files, some chat_id⟩,
   chat_id, meta.title)

/-- ChatManager.load_chat: read the session file, set the active
pointer, return the messages; a missing file raises. -/
def load_chat (chat_id : String) (s : ChatState) : Except String (List StoredMessage × ChatState) :=
  match dictLookup chat_id s.files with
  | none => Except.error ("Chat " ++ chat_id ++ " not found")
  | some msgs => Except.ok (msgs, { s with active_chat_id := some chat_id })

/-- ChatManager.save_message: append to the active session's file
(tolerating a missing file as empty) and to its catalog entry.  In
Python a missing metadata entry for the active id would raise KeyError
after the file write; that partial effect is collapsed into the error
result here, and the runs considered by the claims never reach it.
The source's guard inserting a missing 'messages' key cannot fire in
this model because every ChatMeta carries the field. -/
def save_message (role content timestamp : String) (s : ChatState) : Except String ChatState :=
  match s.active_chat_id with
  | none => Except.error "No active chat"
  | some chat_id =>
    let message : StoredMessage := ⟨role, content, timestamp⟩
    let old := (dictLookup chat_id s.files).getD []
    let files2 := dictInsert chat_id (old ++ [message]) s.files
    match dictLookup chat_id s.chats_metadata with
    | none => Except.error "KeyError"
    | some meta =>
      Except.ok { s with
        files := files2,
        chats_metadata := dictInsert chat_id
          { meta with updated_at := timestamp, messages := meta.messages ++ [message] }
          s.chats_metadata }

/-- ChatManager.update_chat_title. -/
def update_chat_title (chat_id new_title timestamp : String) (s : ChatState) : Except String ChatState :=
  match dictLookup chat_id s.chats_metadata with
  | none => Except.error ("Chat " ++ chat_id ++ " not found")
  | some meta =>
    Except.ok { s with
      chats_metadata := dictInsert chat_id
        { meta with title := new_title, updated_at := timestamp } s.chats_metadata }

/-- ChatManager.delete_chat: remove the file (tolerating absence), the
catalog entry, and clear the active pointer only when it named this
chat. -/
def delete_chat (chat_id : String) (s : ChatState) : Except String ChatState :=
  match dictLookup chat_id s.chats_metadata with
  | none => Except.error ("Chat " ++ chat_id ++ " not found")
  | some _ =>
    Except.ok ⟨dictErase chat_id s.chats_metadata, dictErase chat_id s.files,
      if s.active_chat_id = some chat_id then none else s.active_chat_id⟩

/-- One store mutation with its external inputs (ids, timestamps). -/
inductive StoreOp : Type where
  | create : String → String → StoreOp
  | append : String → String → String → StoreOp
  | rename : String → String → String → StoreOp
  | remove : String → StoreOp
  | open_chat : String → StoreOp
deriving DecidableEq

def runOp : StoreOp → ChatState → Except String ChatState
  | StoreOp.create id ts, s => Except.ok (create_new_chat id ts s).1
  | StoreOp.append role content ts, s => save_message role content ts s
  | StoreOp.rename id title ts, s => update_chat_title id title ts s
  | StoreOp.remove id, s => delete_chat id s
  | StoreOp.open_chat id, s => (load_chat id s).map Prod.snd

/-- Run a sequence of operations, demanding that every one succeeds
(a run without partial failure). -/
def runOps : List StoreOp → ChatState → Option ChatState
  | [], s => some s
  | op :: ops, s =>
    match runOp op s with
    | Except.error _ => none
    | Except.ok s2 => runOps ops s2

/-- The store before any chat exists. -/
def freshStore : ChatState := ⟨[], [], none⟩

/-- The catalog/record duplication invariant: every catalog entry's
duplicated message list equals the message list of that session's
on-disk record. -/
def catalogMatchesFiles (s : ChatState) : Prop :=
  ∀ p ∈ s.chats_metadata, dictLookup p.1 s.files = some p.2.messages

instance : DecidablePred catalogMatchesFiles := fun s =>
  List.decidableBAll _ s.chats_metadata

/-- Strengthened invariant used for the preservation argument: both
association lists have distinct keys and the duplication holds. -/
def storeInv (s : ChatState) : Prop :=
  (s.chats_metadata.map Prod.fst).Nodup ∧ (s.files.map Prod.fst).Nodup ∧
    catalogMatchesFiles s

/-! Association-list lemmas. -/

theorem dictLookup_insert_self {α : Type} (k : String) (v : α) (d : List (String × α)) :
    dictLookup k (dictInsert k v d) = some v := by
  induction d with
  | nil => simp [dictInsert, dictLookup]
  | cons h t ih =>
    obtain ⟨k2, v2⟩ := h
    by_cases hk : k2 = k
    · simp [dictInsert, dictLookup, hk]
    · simp [dictInsert, dictLookup, hk, ih]

theorem dictLookup_insert_ne {α : Type} {k k2 : String} (v : α) (d : List (String × α))
    (hne : k2 ≠ k) : dictLookup k2 (dictInsert k v d) = dictLookup k2 d := by
  have hne2 : ¬(k = k2) := fun h => hne h.symm
  induction d with
  | nil => simp [dictInsert, dictLookup, hne2]
  | cons h t ih =>
    obtain ⟨k3, v3⟩ := h
    by_cases hk : k3 = k
    · have hk3 : ¬(k3 = k2) := by
        rw [hk]
        exact hne2
      simp [dictInsert, dictLookup, hk, hne2, hk3]
    · by_cases hk2 : k3 = k2
      · simp [dictInsert, dictLookup, hk, hk2, hne]
      · simp [dictInsert, dictLookup, hk, hk2, ih]

theorem dictLookup_erase_ne {α : Type} {k k2 : String} (d : List (String × α))
    (hne : k2 ≠ k) : dictLookup k2 (dictErase k d) = dictLookup k2 d := by
  have hne2 : ¬(k = k2) := fun h => hne h.symm
  induction d with
  | nil => simp [dictErase]
  | cons h t ih =>
    obtain ⟨k3, v3⟩ := h
    by_cases hk : k3 = k
    · have hk3 : ¬(k3 = k2) := by
        rw [hk]
        exact hne2
      simp [dictErase, dictLookup, hk, hk3, hne2]
    · by_cases hk2 : k3 = k2
      · simp [dictErase, dictLookup, hk, hk2, hne]
      · simp [dictErase, dictLookup, hk, hk2, ih]

theorem dictLookup_mem {α : Type} {k : String} {v : α} {d : List (String × α)}
    (h : dictLookup k d = some v) : (k, v) ∈ d := by
  induction d with
  | nil => simp [dictLookup] at h
  | cons hd t ih =>
    obtain ⟨k2, v2⟩ := hd
    by_cases hk : k2 = k
    · subst hk
      simp [dictLookup] at h
      simp [h]
    · simp [dictLookup, hk] at h
      exact List.mem_cons_of_mem _ (ih h)

theorem mem_dictInsert_weak {α : Type} {k : String} {v : α} {p : String × α}
    {d : List (String × α)} (h : p ∈ dictInsert k v d) : p = (k, v) ∨ p ∈ d := by
  induction d with
  | nil =>
    simp [dictInsert] at h
    exact Or.inl h
  | cons hd t ih =>
    obtain ⟨k2, v2⟩ := hd
    by_cases hk : k2 = k
    · simp only [dictInsert, if_pos hk] at h
      rcases List.mem_cons.mp h with h1 | h1
      · exact Or.inl h1
      · exact Or.inr (List.mem_cons_of_mem _ h1)
    · simp only [dictInsert, if_neg hk] at h
      rcases List.mem_cons.mp h with h1 | h1
      · exact Or.inr (h1 ▸ List.mem_cons_self _ _)
      · rcases ih h1 with h2 | h2
        · exact Or.inl h2
        · exact Or.inr (List.mem_cons_of_mem _ h2)

theorem keys_dictInsert_nodup {α : Type} (k : String) (v : α) {d : List (String × α)}
    (h : (d.map Prod.fst).Nodup) : ((dictInsert k v d).map Prod.fst).Nodup := by
  induction d with
  | nil => simp [dictInsert]
  | cons hd t ih =>
    obtain ⟨k2, v2⟩ := hd
    simp only [List.map_cons, List.nodup_cons] at h
    by_cases hk : k2 = k
    · simp only [dictInsert, if_pos hk, List.map_cons, List.nodup_cons]
      refine ⟨?_, h.2⟩
      rw [← hk]
      exact h.1
    · simp only [dictInsert, if_neg hk, List.map_cons, List.nodup_cons]
      refine ⟨?_, ih h.2⟩
      intro hmem
      rcases List.mem_map.mp hmem with ⟨p, hm, hfst⟩
      rcases mem_dictInsert_weak hm with h1 | h1
      · rw [h1] at hfst
        exact hk hfst.symm
      · exact h.1 (List.mem_map.mpr ⟨p, h1, hfst⟩)

theorem mem_dictInsert {α : Type} {k : String} {v : α} {p : String × α}
    {d : List (String × α)} (hnd : (d.map Prod.fst).Nodup)
    (h : p ∈ dictInsert k v d) : p = (k, v) ∨ (p ∈ d ∧ p.1 ≠ k) := by
  induction d with
  | nil =>
    simp [dictInsert] at h
    exact Or.inl h
  | cons hd t ih =>
    obtain ⟨k2, v2⟩ := hd
    simp only [List.map_cons, List.nodup_cons] at hnd
    by_cases hk : k2 = k
    · subst hk
      simp only [dictInsert, if_pos rfl] at h
      rcases List.mem_cons.mp h with h1 | h1
      · exact Or.inl h1
      · right
        refine ⟨List.mem_cons_of_mem _ h1, ?_⟩
        intro hpk
        exact hnd.1 (List.mem_map.mpr ⟨p, h1, hpk⟩)
    · simp only [dictInsert, if_neg hk] at h
      rcases List.mem_cons.mp h with h1 | h1
      · subst h1
        exact Or.inr ⟨List.mem_cons_self _ _, hk⟩
      · rcases ih hnd.2 h1 with h2 | h2
        · exact Or.inl h2
        · exact Or.inr ⟨List.mem_cons_of_mem _ h2.1, h2.2⟩

theorem mem_dictErase {α : Type} {k : String} {p : String × α}
    {d : List (String × α)} (hnd : (d.map Prod.fst).Nodup)
    (h : p ∈ dictErase k d) : p ∈ d ∧ p.1 ≠ k := by
  induction d with
  | nil => simp [dictErase] at h
  | cons hd t ih =>
    obtain ⟨k2, v2⟩ := hd
    simp only [List.map_cons, List.nodup_cons] at hnd
    by_cases hk : k2 = k
    · subst hk
      simp only [dictErase, if_pos rfl] at h
      refine ⟨List.mem_cons_of_mem _ h, ?_⟩
      intro hpk
      exact hnd.1 (List.mem_map.mpr ⟨p, h, hpk⟩)
    · simp only [dictErase, if_neg hk] at h
      rcases List.mem_cons.mp h with h1 | h1
      · subst h1
        exact ⟨List.mem_cons_self _ _, hk⟩
      · rcases ih hnd.2 h1 with ⟨h2, h3⟩
        exact ⟨List.mem_cons_of_mem _ h2, h3⟩

theorem keys_dictErase_nodup {α : Type} (k : String) {d : List (String × α)}
    (h : (d.map Prod.fst).Nodup) : ((dictErase k d).map Prod.fst).Nodup := by
  induction d with
  | nil => simp [dictErase]
  | cons hd t ih =>
    obtain ⟨k2, v2⟩ := hd
    simp only [List.map_cons, List.nodup_cons] at h
    by_cases hk : k2 = k
    · simp only [dictErase, if_pos hk]
      exact h.2
    · simp only [dictErase, if_neg hk, List.map_cons, List.nodup_cons]
      refine ⟨?_, ih h.2⟩
      intro hmem
      rcases List.mem_map.mp hmem with ⟨p, hm, hfst⟩
      exact h.1 (List.mem_map.mpr ⟨p, (mem_dictErase h.2 hm).1, hfst⟩)

/-! Preservation of the store invariant by every operation. -/

theorem storeInv_create (id ts : String) {s : ChatState} (hinv : storeInv s) :
    storeInv (create_new_chat id ts s).1 := by
  obtain ⟨hm, hf, hc⟩ := hinv
  simp only [create_new_chat, storeInv, catalogMatchesFiles]
  refine ⟨keys_dictInsert_nodup _ _ hm, keys_dictInsert_nodup _ _ hf, ?_⟩
  intro p hp
  rcases mem_dictInsert hm hp with h1 | h1
  · rw [h1]
    exact dictLookup_insert_self _ _ _
  · rw [dictLookup_insert_ne _ _ h1.2]
    exact hc p h1.1

theorem storeInv_save {role content ts : String} {s s2 : ChatState} (hinv : storeInv s)
    (h : save_message role content ts s = Except.ok s2) : storeInv s2 := by
  obtain ⟨hm, hf, hc⟩ := hinv
  cases hact : s.active_chat_id with
  | none => simp [save_message, hact] at h
  | some id =>
    cases hmeta : dictLookup id s.chats_metadata with
    | none => simp [save_message, hact, hmeta] at h
    | some meta =>
      simp only [save_message, hact, hmeta, Except.ok.injEq] at h
      subst h
      have hold : dictLookup id s.files = some meta.messages := hc _ (dictLookup_mem hmeta)
      refine ⟨keys_dictInsert_nodup _ _ hm, keys_dictInsert_nodup _ _ hf, ?_⟩
      intro p hp
      rcases mem_dictInsert hm hp with h1 | h1
      · rw [h1]
        simp only
        rw [dictLookup_insert_self]
        simp [hold]
      · rw [dictLookup_insert_ne _ _ h1.2]
        exact hc p h1.1

theorem storeInv_rename {id title ts : String} {s s2 : ChatState} (hinv : storeInv s)
    (h : update_chat_title id title ts s = Except.ok s2) : storeInv s2 := by
  obtain ⟨hm, hf, hc⟩ := hinv
  cases hmeta : dictLookup id s.chats_metadata with
  | none => simp [update_chat_title, hmeta] at h
  | some meta =>
    simp only [update_chat_title, hmeta, Except.ok.injEq] at h
    subst h
    refine ⟨keys_dictInsert_nodup _ _ hm, hf, ?_⟩
    intro p hp
    rcases mem_dictInsert hm hp with h1 | h1
    · rw [h1]
      have h2 := hc (id, meta) (dictLookup_mem hmeta)
      simpa using h2
    · exact hc p h1.1

theorem storeInv_delete {id : String} {s s2 : ChatState} (hinv : storeInv s)
    (h : delete_chat id s = Except.ok s2) : storeInv s2 := by
  obtain ⟨hm, hf, hc⟩ := hinv
  cases hmeta : dictLookup id s.chats_metadata with
  | none => simp [delete_chat, hmeta] at h
  | some meta =>
    simp only [delete_chat, hmeta, Except.ok.injEq] at h
    subst h
    refine ⟨keys_dictErase_nodup _ hm, keys_dictErase_nodup _ hf, ?_⟩
    intro p hp
    obtain ⟨hp2, hpne⟩ := mem_dictErase hm hp
    rw [dictLookup_erase_ne _ hpne]
    exact hc p hp2

theorem storeInv_load {id : String} {s : ChatState} {r : List StoredMessage × ChatState}
    (hinv : storeInv s) (h : load_chat id s = Except.ok r) : storeInv r.2 := by
  cases hfile : dictLookup id s.files with
  | none => simp [load_chat, hfile] at h
  | some msgs =>
    simp only [load_chat, hfile, Except.ok.injEq] at h
    subst h
    exact hinv

theorem storeInv_runOp {op : StoreOp} {s s2 : ChatState} (hinv : storeInv s)
    (h : runOp op s = Except.ok s2) : storeInv s2 := by
  cases op with
  | create id ts =>
    simp only [runOp, Except.ok.injEq] at h
    rw [← h]
    exact storeInv_create id ts hinv
  | append role content ts => exact storeInv_save hinv h
  | rename id title ts => exact storeInv_rename hinv h
  | remove id => exact storeInv_delete hinv h
  | open_chat id =>
    simp only [runOp] at h
    cases hload : load_chat id s with
    | error e => rw [hload] at h; simp [Except.map] at h
    | ok r =>
      rw [hload] at h
      simp only [Except.map, Except.ok.injEq] at h
      rw [← h]
      exact storeInv_load hinv hload

theorem storeInv_runOps : ∀ (ops : List StoreOp) (s : ChatState), storeInv s →
    ∀ s2, runOps ops s = some s2 → storeInv s2 := by
  intro ops
  induction ops with
  | nil =>
    intro s hinv s2 h
    simp only [runOps, Option.some.injEq] at h
    rw [← h]
    exact hinv
  | cons op rest ih =>
    intro s hinv s2 h
    simp only [runOps] at h
    cases hop : runOp op s with
    | error e => rw [hop] at h; exact absurd h (by simp)
    | ok s3 =>
      rw [hop] at h
      exact ih s3 (storeInv_runOp hinv hop) s2 h

theorem storeInv_fresh : storeInv freshStore := by
  refine ⟨?_, ?_, ?_⟩ <;> simp [freshStore, catalogMatchesFiles]

/-! Lemmas about splitFirst and pySplit. -/

theorem splitFirst_decomp {sep s pre post : List Char}
    (h : splitFirst sep s = some (pre, post)) : s = pre ++ sep ++ post := by
  induction s generalizing pre post with
  | nil =>
    by_cases he : sep.isEmpty
    · simp only [splitFirst, if_pos he, Option.some.injEq, Prod.mk.injEq] at h
      rw [← h.1, ← h.2, List.isEmpty_iff.mp he]
      rfl
    · simp [splitFirst, he] at h
  | cons c rest ih =>
    by_cases hp : sep.isPrefixOf (c :: rest)
    · simp only [splitFirst, if_pos hp, Option.some.injEq, Prod.mk.injEq] at h
      have h2 : sep ++ (c :: rest).drop sep.length = c :: rest :=
        List.prefix_iff_eq_append.mp (List.isPrefixOf_iff_prefix.mp hp)
      rw [← h.1, ← h.2]
      simp [h2]
    · simp only [splitFirst, if_neg hp] at h
      cases hr : splitFirst sep rest with
      | none => rw [hr] at h; exact absurd h (by simp)
      | some pr =>
        obtain ⟨pre2, post2⟩ := pr
        rw [hr] at h
        simp only [Option.some.injEq, Prod.mk.injEq] at h
        rw [← h.1, ← h.2]
        simp [ih hr]

theorem splitFirst_isSome_of_segment {sep s : List Char} (h : sep <:+: s) :
    (splitFirst sep s).isSome = true := by
  induction s with
  | nil =>
    have : sep = [] := List.eq_nil_of_infix_nil h
    simp [splitFirst, this]
  | cons c rest ih =>
    by_cases hp : sep.isPrefixOf (c :: rest)
    · simp [splitFirst, hp]
    · rcases List.infix_cons_iff.mp h with h1 | h1
      · exact absurd (List.isPrefixOf_iff_prefix.mpr h1) hp
      · simp only [splitFirst, if_neg hp]
        cases hr : splitFirst sep rest with
        | none => rw [hr] at ih; exact absurd (ih h1) (by simp)
        | some pr => simp

theorem containsSeq_of_segment {sep t s : List Char} (h : containsSeq sep t = true)
    (hinf : t <:+: s) : containsSeq sep s = true := by
  unfold containsSeq at h
  cases hr : splitFirst sep t with
  | none => rw [hr] at h; simp at h
  | some pr =>
    obtain ⟨pre, post⟩ := pr
    have hdec : t = pre ++ sep ++ post := splitFirst_decomp hr
    have hsep : sep <:+: t := by
      rw [hdec]
      exact ⟨pre, post, by simp⟩
    exact splitFirst_isSome_of_segment (hsep.trans hinf)

theorem pySplitF_succ_some {sep s pre post : List Char} (f : Nat)
    (h : splitFirst sep s = some (pre, post)) :
    pySplitF sep (f + 1) s = pre :: pySplitF sep f post := by
  simp only [pySplitF, h]

theorem pySplitF_congr {sep : List Char} (hsep : sep ≠ []) :
    ∀ (f1 f2 : Nat) (s : List Char), s.length < f1 → s.length < f2 →
      pySplitF sep f1 s = pySplitF sep f2 s := by
  intro f1
  induction f1 with
  | zero =>
    intro f2 s h1
    exact absurd h1 (by omega)
  | succ n ih =>
    intro f2 s h1 h2
    cases f2 with
    | zero => exact absurd h2 (by omega)
    | succ m =>
      cases hr : splitFirst sep s with
      | none => simp only [pySplitF, hr]
      | some pr =>
        obtain ⟨pre, post⟩ := pr
        rw [pySplitF_succ_some n hr, pySplitF_succ_some m hr]
        have hdec := splitFirst_decomp hr
        have hlen : post.length < s.length := by
          rw [hdec]
          simp only [List.length_append]
          have : 0 < sep.length := List.length_pos.mpr hsep
          omega
        rw [ih m post (by omega) (by omega)]

theorem pySplit_cons {sep s pre post : List Char} (hsep : sep ≠ [])
    (h : splitFirst sep s = some (pre, post)) :
    pySplit sep s = pre :: pySplit sep post := by
  have hdec := splitFirst_decomp h
  have hlen : post.length < s.length := by
    rw [hdec]
    simp only [List.length_append]
    have : 0 < sep.length := List.length_pos.mpr hsep
    omega
  unfold pySplit
  rw [pySplitF_succ_some s.length h]
  rw [pySplitF_congr hsep s.length (post.length + 1) post (by omega) (by omega)]

theorem pySplit_no_occurrence {sep s : List Char} (h : containsSeq sep s = false) :
    pySplit sep s = [s] := by
  unfold containsSeq at h
  unfold pySplit pySplitF
  cases hr : splitFirst sep s with
  | none => rfl
  | some pr => rw [hr] at h; simp at h

theorem pySplit_ne_nil (sep s : List Char) : pySplit sep s ≠ [] := by
  unfold pySplit pySplitF
  cases hr : splitFirst sep s with
  | none => simp
  | some pr => simp

/-! Lemmas about the retry loop. -/

theorem retry_step_invalid (b : Nat → String) (p : String) (maxr rem : Nat)
    (m : List ChatMsg) (a : Nat) (ha : maxr - (rem + 1) = a)
    (h : validate_response (b a) = some false) :
    retry_loop (fun i => Except.ok (b i)) p maxr (rem + 1) m =
      ((retry_loop (fun i => Except.ok (b i)) p maxr rem
          (m ++ [ChatMsg.mk "system" (enhance_prompt a), ChatMsg.mk "user" p])).1,
        m :: (retry_loop (fun i => Except.ok (b i)) p maxr rem
          (m ++ [ChatMsg.mk "system" (enhance_prompt a), ChatMsg.mk "user" p])).2) := by
  simp only [retry_loop, ha, h]

theorem retry_step_valid (b : Nat → String) (p : String) (maxr rem : Nat)
    (m : List ChatMsg) (a : Nat) (ha : maxr - (rem + 1) = a)
    (h : validate_response (b a) = some true) :
    retry_loop (fun i => Except.ok (b i)) p maxr (rem + 1) m = (Except.ok (b a), [m]) := by
  simp only [retry_loop, ha, h]

theorem retry_loop_all_invalid (b : Nat → String) (p : String) (maxr : Nat)
    (h : ∀ i, i < maxr → validate_response (b i) = some false) :
    ∀ rem, rem ≤ maxr → ∀ m, (retry_loop (fun i => Except.ok (b i)) p maxr rem m).1 =
      Except.error "Failed to get valid response with proper think tags" := by
  intro rem
  induction rem with
  | zero =>
    intro _ m
    simp [retry_loop]
  | succ n ih =>
    intro hle m
    rw [retry_step_invalid b p maxr n m (maxr - (n + 1)) rfl (h _ (by omega))]
    exact ih (by omega) _

theorem countSystem_append (l1 l2 : List ChatMsg) :
    countSystem (l1 ++ l2) = countSystem l1 + countSystem l2 := by
  induction l1 with
  | nil => simp [countSystem]
  | cons m rest ih =>
    show (if m.role = "system" then 1 else 0) + countSystem (rest ++ l2) =
      ((if m.role = "system" then 1 else 0) + countSystem rest) + countSystem l2
    rw [ih]
    omega

theorem countSystem_escalation (m : List ChatMsg) (a : Nat) (p : String) :
    countSystem (m ++ [ChatMsg.mk "system" (enhance_prompt a), ChatMsg.mk "user" p]) =
      countSystem m + 1 := by
  rw [countSystem_append]
  simp [countSystem]

/-- The message sequence sent on the backend call of attempt k of a run
whose first k attempts were all rejected by the validator: the initial
sequence extended by one escalation (system instruction plus re-added
prompt) per rejected attempt. -/
def escalatedMessages (prompt system_prompt : String) (history : List ChatMsg) : Nat → List ChatMsg
  | 0 => initial_messages system_prompt history prompt
  | k + 1 => escalatedMessages prompt system_prompt history k ++
      [ChatMsg.mk "system" (enhance_prompt k), ChatMsg.mk "user" prompt]

theorem countSystem_escalated_succ (prompt system_prompt : String)
    (history : List ChatMsg) (k : Nat) :
    countSystem (escalatedMessages prompt system_prompt history (k + 1)) =
      countSystem (escalatedMessages prompt system_prompt history k) + 1 := by
  show countSystem (escalatedMessages prompt system_prompt history k ++
    [ChatMsg.mk "system" (enhance_prompt k), ChatMsg.mk "user" prompt]) = _
  rw [countSystem_escalation]

/-- Evaluation of the splitter when the text after the first opening
marker contains no closing marker. -/
theorem extractCore_eval {s pre p1 : List Char} {trest : List (List Char)}
    (hps : pySplit thinkOpen s = pre :: p1 :: trest)
    (hnc : containsSeq thinkClose p1 = false) :
    extractCore s = (pyStrip pre, pyStrip p1) := by
  unfold extractCore
  rw [hps]
  dsimp only
  rw [pySplit_no_occurrence hnc]

/-!
Claim theorems.
-/

/-- C4: the validator accepts "answer <think>sufficiently long
reasoning text</think>" and rejects "<think>short</think> trailing"
(reasoning shorter than ten characters), "no blocks here" (no
reasoning block) and "<think>tiny</think>" (reasoning shorter than ten
characters). -/
theorem validator_concrete_cases :
    validate_response "answer <think>sufficiently long reasoning text</think>" = some true ∧
    validate_response "<think>short</think> trailing" = some false ∧
    validate_response "no blocks here" = some false ∧
    validate_response "<think>tiny</think>" = some false :=
  ⟨by decide, by decide, by decide, by decide⟩

/-- C2 (refuting the claimed rejection rule): on an input whose parse
succeeds, which contains a reasoning block of accepted length, and in
which sibling content (the trailing text) follows the last reasoning
block under its parent (the synthetic root), validate_response still
returns true: the path query .//*[think] never matches the root
element, and trailing text is held in the think element's tail, which
the function never examines. -/
theorem validate_accepts_trailing_content :
    validate_response "<think>sufficiently long reasoning</think> trailing" = some true := by
  decide

/-- C7: splitting "Hello <think>because</think> world" yields
("Hello world", "because") — the text after the closing marker is
trimmed and space-joined onto the text before the opening marker — and
splitting "plain text" yields ("plain text", ""). -/
theorem splitter_concrete_cases :
    extract_content_and_thoughts "Hello <think>because</think> world" =
      ("Hello world", "because") ∧
    extract_content_and_thoughts "plain text" = ("plain text", "") :=
  ⟨by decide, by decide⟩

/-- C5 (refuting the claimed empty reasoning): the input "<think>abc"
contains the opening marker and no closing marker, yet the reasoning
component of the split is not the empty string (it is "abc"). -/
theorem extract_unclosed_reasoning_not_empty :
    containsSeq thinkOpen "<think>abc".data = true ∧
    containsSeq thinkClose "<think>abc".data = false ∧
    (extractCore "<think>abc".data).2 ≠ [] :=
  ⟨by decide, by decide, by decide⟩

/-- C5 as amended: the splitter is total (it always returns a pair,
never raising), and on any input that contains the opening marker but
no closing marker, the answer is the trimmed text before the first
opening marker and the reasoning is the trimmed text strictly between
the first opening marker and the next opening marker or end of input —
not the empty string in general. -/
theorem extract_total_and_unclosed (s : List Char) :
    (∃ a r, extractCore s = (a, r)) ∧
    (containsSeq thinkOpen s = true → containsSeq thinkClose s = false →
      ∃ pre rest, s = pre ++ thinkOpen ++ rest ∧
        extractCore s = (pyStrip pre, pyStrip ((pySplit thinkOpen rest).headI))) := by
  constructor
  · exact ⟨(extractCore s).1, (extractCore s).2, rfl⟩
  · intro h1 h2
    unfold containsSeq at h1
    cases hr : splitFirst thinkOpen s with
    | none => rw [hr] at h1; simp at h1
    | some pr =>
      obtain ⟨pre, rest⟩ := pr
      have hdec := splitFirst_decomp hr
      refine ⟨pre, rest, hdec, ?_⟩
      have hop : thinkOpen ≠ [] := by decide
      have hparts : pySplit thinkOpen s = pre :: pySplit thinkOpen rest :=
        pySplit_cons hop hr
      obtain ⟨p1, trest, htp⟩ := List.exists_cons_of_ne_nil (pySplit_ne_nil thinkOpen rest)
      have hrest_inf : rest <:+: s := by
        rw [hdec]
        exact ⟨pre ++ thinkOpen, [], by simp⟩
      have hinf : p1 <:+: s := by
        cases hro : splitFirst thinkOpen rest with
        | none =>
          have : pySplit thinkOpen rest = [rest] := by
            apply pySplit_no_occurrence
            unfold containsSeq
            rw [hro]
            rfl
          rw [this] at htp
          obtain ⟨h3, h4⟩ := List.cons.injEq .. ▸ htp
          exact h3 ▸ hrest_inf
        | some pr2 =>
          obtain ⟨pre2, rest2⟩ := pr2
          have hdec2 := splitFirst_decomp hro
          have : pySplit thinkOpen rest = pre2 :: pySplit thinkOpen rest2 :=
            pySplit_cons hop hro
          rw [this] at htp
          obtain ⟨h3, h4⟩ := List.cons.injEq .. ▸ htp
          have hpre2 : pre2 <:+: rest := by
            rw [hdec2]
            exact ⟨[], thinkOpen ++ rest2, by simp⟩
          exact h3 ▸ (hpre2.trans hrest_inf)
      have hnc : containsSeq thinkClose p1 = false := by
        cases hcp : containsSeq thinkClose p1 with
        | false => rfl
        | true => rw [containsSeq_of_segment hcp hinf] at h2; exact absurd h2 (by simp)
      rw [htp] at hparts
      rw [extractCore_eval hparts hnc, htp]
      rfl

/-- C5 witness: the amended statement instantiated at "<think>abc",
with both marker hypotheses discharged concretely. -/
theorem extract_total_and_unclosed_witness :
    containsSeq thinkOpen "<think>abc".data = true ∧
    containsSeq thinkClose "<think>abc".data = false ∧
    ∃ pre rest, "<think>abc".data = pre ++ thinkOpen ++ rest ∧
      extractCore "<think>abc".data =
        (pyStrip pre, pyStrip ((pySplit thinkOpen rest).headI)) :=
  ⟨by decide, by decide,
    (extract_total_and_unclosed "<think>abc".data).2 (by decide) (by decide)⟩

/-- C3 (refuting the claimed budget-naming message): a run with the
full budget of 10 in which every backend call returns a reply that
fails validation (and no transport error occurs) ends in the fixed
terminal error "Failed to get valid response with proper think tags",
whose text does not contain "10", the value of the budget. -/
theorem retry_exhaustion_message_lacks_budget :
    (get_valid_response (fun _ => Except.ok "bad") "hi" []
      "You are a helpful AI assistant." 10).1 =
      Except.error "Failed to get valid response with proper think tags" ∧
    containsSeq "10".data "Failed to get valid response with proper think tags".data =
      false :=
  ⟨by rfl, by decide⟩

/-- C3 as amended: when the retry loop exhausts all max_retries
attempts because every reply fails validation (no transport error),
the orchestrator fails with the fixed terminal error "Failed to get
valid response with proper think tags", which does not name the retry
budget; the budget is named only by the error raised when an exception
occurs on the final attempt. -/
theorem retry_exhaustion_fixed_message (b : Nat → String)
    (prompt system_prompt : String) (history : List ChatMsg) (maxr : Nat)
    (h : ∀ i, i < maxr → validate_response (b i) = some false) :
    (get_valid_response (fun i => Except.ok (b i)) prompt history system_prompt maxr).1 =
      Except.error "Failed to get valid response with proper think tags" := by
  unfold get_valid_response
  exact retry_loop_all_invalid b prompt maxr h maxr le_rfl _

/-- C3 witness: the amended statement at a concrete all-invalid
backend with budget 10. -/
theorem retry_exhaustion_fixed_message_witness :
    (∀ i, i < 10 → validate_response ((fun _ => "bad") i) = some false) ∧
    (get_valid_response (fun i => Except.ok ((fun _ => "bad") i)) "hi" []
      "You are a helpful AI assistant." 10).1 =
      Except.error "Failed to get valid response with proper think tags" :=
  ⟨by decide,
    retry_exhaustion_fixed_message (fun _ => "bad") "hi"
      "You are a helpful AI assistant." [] 10 (by decide)⟩

/-- C8: from any store state, create a session, append a user message
"hi" to it, and load it back: both operations succeed and the loaded
message list holds exactly one message with role "user" and content
"hi". -/
theorem create_append_load_roundtrip (s : ChatState) (id ts1 ts2 : String) :
    (save_message "user" "hi" ts2 (create_new_chat id ts1 s).1).map
      (fun s2 => (load_chat id s2).map (fun r => r.1)) =
      Except.ok (Except.ok [StoredMessage.mk "user" "hi" ts2]) := by
  simp only [create_new_chat, save_message]
  rw [dictLookup_insert_self, dictLookup_insert_self]
  simp only [Option.getD_some, Except.map, load_chat]
  rw [dictLookup_insert_self]
  rfl

/-- C9: deleting an existing session succeeds; it clears the active
pointer when the deleted session was the active one and leaves the
active pointer unchanged otherwise. -/
theorem delete_chat_active_pointer (s : ChatState) (chat_id : String)
    (h : (dictLookup chat_id s.chats_metadata).isSome = true) :
    (delete_chat chat_id s).map (fun t => t.active_chat_id) =
      Except.ok (if s.active_chat_id = some chat_id then none else s.active_chat_id) := by
  cases hmeta : dictLookup chat_id s.chats_metadata with
  | none => rw [hmeta] at h; simp at h
  | some meta => simp [delete_chat, hmeta, Except.map]

/-- A concrete two-session store with active session "a", used to
witness the frame property of deletion. -/
def twoChatState : ChatState :=
  ⟨[("a", ⟨"t1", "t1", "Chat 1", []⟩), ("b", ⟨"t2", "t2", "Chat 2", []⟩)],
   [("a", []), ("b", [])], some "a"⟩

/-- C9 witness: deleting the active session "a" clears the pointer,
deleting the non-active session "b" leaves it at "a". -/
theorem delete_chat_active_pointer_witness :
    ((dictLookup "a" twoChatState.chats_metadata).isSome = true ∧
      (delete_chat "a" twoChatState).map (fun t => t.active_chat_id) =
        Except.ok (if twoChatState.active_chat_id = some "a" then none
          else twoChatState.active_chat_id)) ∧
    ((dictLookup "b" twoChatState.chats_metadata).isSome = true ∧
      (delete_chat "b" twoChatState).map (fun t => t.active_chat_id) =
        Except.ok (if twoChatState.active_chat_id = some "b" then none
          else twoChatState.active_chat_id)) :=
  ⟨⟨by decide, delete_chat_active_pointer twoChatState "a" (by decide)⟩,
   ⟨by decide, delete_chat_active_pointer twoChatState "b" (by decide)⟩⟩

/-- C10: create_new_chat assigns the default title "Chat N" with N one
more than the current number of catalog entries (both as the returned
title and in the stored entry), and consequently default titles are
not unique: after create "a", create "b", delete "a", create "c", the
distinct sessions "b" and "c" both carry the title "Chat 2". -/
theorem default_title_from_catalog_size :
    (∀ (s : ChatState) (id ts : String),
      (create_new_chat id ts s).2.2 = "Chat " ++ toString (s.chats_metadata.length + 1) ∧
      (dictLookup id (create_new_chat id ts s).1.chats_metadata).map ChatMeta.title =
        some ("Chat " ++ toString (s.chats_metadata.length + 1))) ∧
    (∃ sF : ChatState,
      runOps [StoreOp.create "a" "t1", StoreOp.create "b" "t2", StoreOp.remove "a",
        StoreOp.create "c" "t3"] freshStore = some sF ∧
      ("b" : String) ≠ "c" ∧
      (dictLookup "b" sF.chats_metadata).map ChatMeta.title = some "Chat 2" ∧
      (dictLookup "c" sF.chats_metadata).map ChatMeta.title = some "Chat 2") := by
  constructor
  · intro s id ts
    constructor
    · rfl
    · simp only [create_new_chat]
      rw [dictLookup_insert_self]
      rfl
  · refine ⟨(runOps [StoreOp.create "a" "t1", StoreOp.create "b" "t2", StoreOp.remove "a",
      StoreOp.create "c" "t3"] freshStore).getD freshStore, by decide, by decide, by decide,
      by decide⟩

/-- C6: along any sequence of store operations that runs from the
fresh store with every operation succeeding, the final state satisfies
the duplication invariant: every catalog entry's message list equals
the message list of that session's on-disk record. -/
theorem store_catalog_matches_files (ops : List StoreOp) (s2 : ChatState)
    (h : runOps ops freshStore = some s2) : catalogMatchesFiles s2 :=
  (storeInv_runOps ops freshStore storeInv_fresh s2 h).2.2

/-- A concrete mutation sequence exercising every operation. -/
def sampleOps : List StoreOp :=
  [StoreOp.create "a" "t1", StoreOp.append "user" "hi" "t2",
   StoreOp.rename "a" "Renamed" "t3", StoreOp.create "b" "t4",
   StoreOp.open_chat "a", StoreOp.append "assistant" "yo" "t5",
   StoreOp.remove "b"]

def sampleOpsResult : ChatState := (runOps sampleOps freshStore).getD freshStore

/-- C6 witness: the invariant holds at the end of the concrete
sequence, whose operations all succeed. -/
theorem store_catalog_matches_files_witness :
    runOps sampleOps freshStore = some sampleOpsResult ∧
      catalogMatchesFiles sampleOpsResult :=
  ⟨by decide, store_catalog_matches_files sampleOps sampleOpsResult (by decide)⟩

/-- C1: with budget 10, against a backend whose replies on attempts
1 through 9 (indices 0 through 8) fail validation and whose reply on
attempt 10 (index 9) passes, the orchestrator returns attempt 10's
content, issues exactly one backend call per attempt (the trace of
sent message sequences has length 10), and the sequence sent on each
of attempts 2 through 10 contains exactly one more system-role entry
than the one sent on the previous attempt. -/
theorem retry_success_on_tenth (b : Nat → String) (prompt system_prompt : String)
    (history : List ChatMsg)
    (hinv : ∀ i, i < 9 → validate_response (b i) = some false)
    (hval : validate_response (b 9) = some true) :
    (get_valid_response (fun i => Except.ok (b i)) prompt history system_prompt 10).1 =
      Except.ok (b 9) ∧
    (get_valid_response (fun i => Except.ok (b i)) prompt history system_prompt 10).2.length
      = 10 ∧
    ∀ i, i + 1 <
      (get_valid_response (fun i => Except.ok (b i)) prompt history system_prompt 10).2.length →
      countSystem ((get_valid_response (fun i => Except.ok (b i)) prompt history
          system_prompt 10).2.getD (i + 1) []) =
        countSystem ((get_valid_response (fun i => Except.ok (b i)) prompt history
          system_prompt 10).2.getD i []) + 1 := by
  have key : get_valid_response (fun i => Except.ok (b i)) prompt history system_prompt 10 =
      (Except.ok (b 9), (List.range 10).map (escalatedMessages prompt system_prompt history)) := by
    unfold get_valid_response
    rw [retry_step_invalid b prompt 10 9 _ 0 (by decide) (hinv 0 (by decide))]
    rw [retry_step_invalid b prompt 10 8 _ 1 (by decide) (hinv 1 (by decide))]
    rw [retry_step_invalid b prompt 10 7 _ 2 (by decide) (hinv 2 (by decide))]
    rw [retry_step_invalid b prompt 10 6 _ 3 (by decide) (hinv 3 (by decide))]
    rw [retry_step_invalid b prompt 10 5 _ 4 (by decide) (hinv 4 (by decide))]
    rw [retry_step_invalid b prompt 10 4 _ 5 (by decide) (hinv 5 (by decide))]
    rw [retry_step_invalid b prompt 10 3 _ 6 (by decide) (hinv 6 (by decide))]
    rw [retry_step_invalid b prompt 10 2 _ 7 (by decide) (hinv 7 (by decide))]
    rw [retry_step_invalid b prompt 10 1 _ 8 (by decide) (hinv 8 (by decide))]
    rw [retry_step_valid b prompt 10 0 _ 9 (by decide) hval]
    rfl
  rw [key]
  refine ⟨rfl, by simp, ?_⟩
  intro i hi
  simp only [List.length_map, List.length_range] at hi
  have hgd : ∀ j, j < 10 →
      ((List.range 10).map (escalatedMessages prompt system_prompt history)).getD j [] =
        escalatedMessages prompt system_prompt history j := by
    intro j hj
    rw [List.getD_eq_getElem?_getD, List.getElem?_map, List.getElem?_range hj]
    rfl
  rw [hgd (i + 1) (by omega), hgd i (by omega)]
  exact countSystem_escalated_succ prompt system_prompt history i

/-- The scripted backend used to witness the ten-attempt run: nine
invalid replies followed by a valid one. -/
def scriptedBackend : Nat → String :=
  fun i => if i = 9 then "answer <think>sufficiently long reasoning text</think>" else "bad"

/-- C1 witness: the ten-attempt run against the scripted backend, with
both validation hypotheses discharged concretely. -/
theorem retry_success_on_tenth_witness :
    (∀ i, i < 9 → validate_response (scriptedBackend i) = some false) ∧
    validate_response (scriptedBackend 9) = some true ∧
    ((get_valid_response (fun i => Except.ok (scriptedBackend i)) "hi" []
        "You are a helpful AI assistant." 10).1 = Except.ok (scriptedBackend 9) ∧
      (get_valid_response (fun i => Except.ok (scriptedBackend i)) "hi" []
        "You are a helpful AI assistant." 10).2.length = 10 ∧
      ∀ i, i + 1 < (get_valid_response (fun i => Except.ok (scriptedBackend i)) "hi" []
          "You are a helpful AI assistant." 10).2.length →
        countSystem ((get_valid_response (fun i => Except.ok (scriptedBackend i)) "hi" []
            "You are a helpful AI assistant." 10).2.getD (i + 1) []) =
          countSystem ((get_valid_response (fun i => Except.ok (scriptedBackend i)) "hi" []
            "You are a helpful AI assistant." 10).2.getD i []) + 1) :=
  ⟨by decide, by decide,
    retry_success_on_tenth scriptedBackend "hi" "You are a helpful AI assistant." []
      (by decide) (by decide)⟩
